import Mathlib

/-!
ConcurrentAPIFetcher: the fan-out / fan-in fetch engine of `main.go`

The development embeds `fetchURL` and `fetchHandler` of `src/main.go`.

* `fetchURL` is a straight-line function with three fallible library calls.
  What the network stack answers to one call is an `Attempt`; the function is
  embedded as the list of effects (`Event`) it performs, in program order,
  deferred calls included.
* `fetchHandler` validates the request sequentially and then runs goroutines.
  The goroutines (the handler itself, the anonymous closer goroutine, one
  worker per URL) are embedded as an interleaving machine over a shared
  `State` (WaitGroup counter, buffered channel, accumulated slice).  A schedule
  is a list of numbers; at each step the number picks one of the goroutines
  that can run.

Outside the embedding: wall-clock time, the text of the errors produced by
`net/http`, and the byte-level JSON encoding of the response.
-/

namespace ConcurrentAPIFetcher

/-! ## Data model -/

/-- Go: `type RequestPayload struct { Urls []string }`. -/
structure RequestPayload where
  Urls : List String
  deriving DecidableEq, Repr

/-- Go: `type Result struct { URL, Data, Err string }`. -/
structure Result where
  URL : String
  Data : String
  Err : String
  deriving DecidableEq, Repr

/-- The answers of the library calls made by one run of `fetchURL`:
`err` of `http.NewRequestWithContext`, `err` of `http.DefaultClient.Do`, and
`(body, err)` of `io.ReadAll`.  An answer is only looked at when the call is
reached.  Expiry or cancellation of the context shows up as an error of `Do`
or of `ReadAll`. -/
structure Attempt where
  newRequestErr : Option String
  doErr : Option String
  body : String
  readErr : Option String
  deriving DecidableEq, Repr

/-- The effects a run of `fetchURL` performs. -/
inductive Event where
  | newRequest (url : String)
  | clientDo
  | readAll
  | bodyClose
  | send (r : Result)
  | wgDone
  deriving DecidableEq, Repr

/-- Go: `func fetchURL(ctx, url, ch, wg)`, as the sequence of its effects.
`defer wg.Done()` is registered first and `defer resp.Body.Close()` second, so
on return `Body.Close` runs before `wg.Done`. -/
def fetchURL (a : Attempt) (url : String) : List Event :=
  Event.newRequest url ::
    match a.newRequestErr with
    | some err => [Event.send { URL := url, Data := "", Err := err }, Event.wgDone]
    | none =>
      Event.clientDo ::
        match a.doErr with
        | some err => [Event.send { URL := url, Data := "", Err := err }, Event.wgDone]
        | none =>
          Event.readAll ::
            match a.readErr with
            | some err =>
              [Event.send { URL := url, Data := "", Err := err }, Event.bodyClose, Event.wgDone]
            | none =>
              [Event.send { URL := url, Data := a.body, Err := "" }, Event.bodyClose,
                Event.wgDone]

/-- The results sent on the channel by a sequence of effects, in order. -/
def sends : List Event → List Result
  | [] => []
  | Event.send r :: t => r :: sends t
  | _ :: t => sends t

/-- Number of `wg.Done()` calls in a sequence of effects. -/
def countDone : List Event → Nat
  | [] => 0
  | Event.wgDone :: t => countDone t + 1
  | _ :: t => countDone t

/-! ## The HTTP response -/

/-- What has been written to the `http.ResponseWriter`: plain text, or the
slice handed to `json.NewEncoder(w).Encode`. -/
inductive Body where
  | text (s : String)
  | json (results : List Result)
  deriving DecidableEq, Repr

/-- Status line, `Content-Type` header and body of the response. -/
structure Response where
  status : Nat
  contentType : String
  body : Body
  deriving DecidableEq, Repr

/-- Go library: `http.Error(w, msg, code)` sets a plain-text content type,
writes the status code and prints the message followed by a newline. -/
def httpError (msg : String) (code : Nat) : Response :=
  { status := code, contentType := "text/plain; charset=utf-8", body := Body.text (msg ++ "\n") }

/-- The incoming request: method and raw body. -/
structure Request where
  method : String
  body : String
  deriving DecidableEq, Repr

/-! ## The goroutines of `fetchHandler` -/

/-- Program counter of the handler goroutine after validation. -/
inductive MainPC where
  | loop (rest : List String)
  | spawnWorker (url : String) (rest : List String)
  | spawnCloser
  | collect
  | respond
  | returned
  deriving DecidableEq, Repr

/-- Program counter of `go func() { wg.Wait(); close(resultsCh) }()`. -/
inductive CloserPC where
  | notStarted
  | waiting
  | closing
  | exited
  deriving DecidableEq, Repr

/-- Shared state of one call of `fetchHandler`. -/
structure State where
  pc : MainPC
  closer : CloserPC
  workers : List (List Event)
  wg : Int
  cap : Nat
  buf : List Result
  closed : Bool
  results : List Result
  decoded : Bool
  resp : Option Response
  crashed : Bool
  deriving DecidableEq, Repr

/-- Goroutine identifiers. -/
inductive Tid where
  | main
  | closer
  | worker (i : Nat)
  deriving DecidableEq, Repr

/-- Whether the handler goroutine can take a step: the `range` over the channel
blocks while the buffer is empty and the channel is open. -/
def mainEnabled (s : State) : Bool :=
  match s.pc with
  | MainPC.collect => !s.buf.isEmpty || s.closed
  | MainPC.returned => false
  | _ => true

/-- Whether the closer goroutine can take a step: `wg.Wait()` blocks until the
counter is zero. -/
def closerEnabled (s : State) : Bool :=
  match s.closer with
  | CloserPC.waiting => s.wg == 0
  | CloserPC.closing => true
  | _ => false

/-- Whether a worker with the given remaining effects can take a step: a send
blocks while the buffer is full (a send on a closed channel does not block,
it panics). -/
def workerEnabled (s : State) (w : List Event) : Bool :=
  match w with
  | [] => false
  | Event.send _ :: _ => s.closed || s.buf.length < s.cap
  | _ => true

/-- Whether goroutine `t` can take a step. -/
def enabled (s : State) : Tid → Bool
  | Tid.main => mainEnabled s
  | Tid.closer => closerEnabled s
  | Tid.worker i =>
    match s.workers[i]? with
    | some w => workerEnabled s w
    | none => false

/-- All goroutines of the call. -/
def allTids (s : State) : List Tid :=
  Tid.main :: Tid.closer :: (List.range s.workers.length).map Tid.worker

/-- The goroutines that can run; none once the process has panicked. -/
def enabledTids (s : State) : List Tid :=
  if s.crashed then [] else (allTids s).filter (enabled s)

/-- One step of the handler goroutine, lines 72-88 of `main.go`. -/
def execMain (att : Nat → Attempt) (s : State) : State :=
  match s.pc with
  | MainPC.loop [] => { s with pc := MainPC.spawnCloser }
  | MainPC.loop (u :: rest) => { s with wg := s.wg + 1, pc := MainPC.spawnWorker u rest }
  | MainPC.spawnWorker u rest =>
    { s with workers := s.workers ++ [fetchURL (att s.workers.length) u], pc := MainPC.loop rest }
  | MainPC.spawnCloser => { s with closer := CloserPC.waiting, pc := MainPC.collect }
  | MainPC.collect =>
    match s.buf with
    | r :: rest => { s with buf := rest, results := s.results ++ [r] }
    | [] => if s.closed then { s with pc := MainPC.respond } else s
  | MainPC.respond =>
    { s with
      resp := some { status := 200, contentType := "application/json",
                     body := Body.json s.results }
      pc := MainPC.returned }
  | MainPC.returned => s

/-- One step of the closer goroutine; closing a closed channel panics. -/
def execCloser (s : State) : State :=
  match s.closer with
  | CloserPC.waiting => if s.wg == 0 then { s with closer := CloserPC.closing } else s
  | CloserPC.closing =>
    if s.closed then { s with crashed := true }
    else { s with closed := true, closer := CloserPC.exited }
  | _ => s

/-- One step of worker `i`: it performs the next effect of its `fetchURL`.
A send appends to the channel buffer (and panics on a closed channel);
`wg.Done()` decrements the counter (and panics if it would go negative). -/
def execWorker (s : State) (i : Nat) : State :=
  match s.workers[i]? with
  | some (e :: rest) =>
    match e with
    | Event.send r =>
      if s.closed then { s with crashed := true }
      else if s.buf.length < s.cap then
        { s with workers := s.workers.set i rest, buf := s.buf ++ [r] }
      else s
    | Event.wgDone =>
      if s.wg ≤ 0 then { s with crashed := true }
      else { s with workers := s.workers.set i rest, wg := s.wg - 1 }
    | _ => { s with workers := s.workers.set i rest }
  | _ => s

/-- One step of goroutine `t`. -/
def exec (att : Nat → Attempt) (s : State) : Tid → State
  | Tid.main => execMain att s
  | Tid.closer => execCloser s
  | Tid.worker i => execWorker s i

/-- One scheduling decision: `c` picks one of the goroutines that can run. -/
def step (att : Nat → Attempt) (s : State) (c : Nat) : State :=
  match (enabledTids s)[c % (enabledTids s).length]? with
  | some t => exec att s t
  | none => s

/-- Runs the machine along a schedule. -/
def run (att : Nat → Attempt) (s : State) : List Nat → State
  | [] => s
  | c :: cs => run att (step att s c) cs

/-- State of a call that was answered with `http.Error` before any goroutine
was started. -/
def rejected (decoded : Bool) (resp : Response) : State :=
  { pc := MainPC.returned, closer := CloserPC.notStarted, workers := [], wg := 0, cap := 0,
    buf := [], closed := false, results := [], decoded := decoded, resp := some resp,
    crashed := false }

/-- State at line 72 of `main.go`: the channel has capacity `len(request.Urls)`,
the WaitGroup is zero, nothing is launched yet. -/
def dispatch (urls : List String) : State :=
  { pc := MainPC.loop urls, closer := CloserPC.notStarted, workers := [], wg := 0,
    cap := urls.length, buf := [], closed := false, results := [], decoded := true,
    resp := none, crashed := false }

/-- Go: `func fetchHandler(w, r)`.  `decode` is `json.NewDecoder(r.Body).Decode`,
`att i` are the library answers seen by the `i`-th launched worker, `sched`
is the interleaving of the goroutines.  The value is the state in which the
schedule leaves the call. -/
def fetchHandler (decode : String → Except String RequestPayload) (att : Nat → Attempt)
    (r : Request) (sched : List Nat) : State :=
  if r.method ≠ "POST" then
    rejected false (httpError "Only POST requests are allowed" 405)
  else
    match decode r.body with
    | Except.error err => rejected true (httpError ("Invalid JSON format: " ++ err) 400)
    | Except.ok request =>
      if request.Urls.length = 0 then rejected true (httpError "No URLs provided" 400)
      else run att (dispatch request.Urls) sched

/-- The results the workers launched for `urls` will send, the first of them
being worker number `k`. -/
def future (att : Nat → Attempt) : Nat → List String → List Result
  | _, [] => []
  | k, u :: rest => sends (fetchURL (att k) u) ++ future att (k + 1) rest

/-- Number of scheduling steps after which a dispatched batch of `n` URLs has
returned, whatever the schedule. -/
def stepBound (n : Nat) : Nat := 9 * n + 6

/-- Whether a plain-text body contains `sub`; an encoded array does not count. -/
def Body.contains (b : Body) (sub : String) : Prop :=
  match b with
  | Body.text s => sub.data <:+: s.data
  | Body.json _ => False

/-- Whether a plain-text body begins with `pre`. -/
def Body.beginsWith (b : Body) (pre : String) : Prop :=
  match b with
  | Body.text s => pre.data <+: s.data
  | Body.json _ => False

/-- Whether a status code is a client error. -/
def isClientError (code : Nat) : Prop := 400 ≤ code ∧ code ≤ 499

/-! ## Concrete inputs used to instantiate the theorems -/

/-- A decoder that yields a batch of three URLs, one of them twice. -/
def sampleDecode : String → Except String RequestPayload :=
  fun _ => Except.ok { Urls := ["http://a.test", "http://b.test", "http://a.test"] }

/-- A decoder that yields an empty URL list. -/
def sampleDecodeEmpty : String → Except String RequestPayload :=
  fun _ => Except.ok { Urls := [] }

/-- A decoder that fails. -/
def sampleDecodeFail : String → Except String RequestPayload :=
  fun _ => Except.error "unexpected EOF"

/-- Answers in which worker 1 runs into the deadline and the others succeed. -/
def sampleAttempts : Nat → Attempt :=
  fun i =>
    if i = 1 then
      { newRequestErr := none, doErr := some "context deadline exceeded", body := "",
        readErr := none }
    else { newRequestErr := none, doErr := none, body := "ok", readErr := none }

/-- Answers in which every fetch succeeds. -/
def sampleAllOk : Nat → Attempt :=
  fun _ => { newRequestErr := none, doErr := none, body := "ok", readErr := none }

/-- A POST request. -/
def samplePost : Request := { method := "POST", body := "payload" }

/-- A GET request. -/
def sampleGet : Request := { method := "GET", body := "" }

/-- A schedule that always picks the first goroutine that can run. -/
def sampleSchedule : List Nat := List.replicate 33 0

/-- A schedule that lets the handler launch all three workers, then runs the
last worker to completion before any other. -/
def sampleScheduleLate : List Nat :=
  List.replicate 6 0 ++ List.replicate 9 3 ++ List.replicate 18 0

/-! ## Quantities used by the invariant -/

/-- Sum of `g` over a list of results. -/
def wt (g : Result → Nat) (l : List Result) : Nat := (l.map g).sum

/-- Sum of `f` over the remaining effects of all workers. -/
def wsum (f : List Event → Nat) (ws : List (List Event)) : Nat := (ws.map f).sum

/-- URLs for which no worker has been started yet. -/
def pendingUrls : MainPC → List String
  | MainPC.loop rest => rest
  | MainPC.spawnWorker u rest => u :: rest
  | _ => []

/-- One when `wg.Add(1)` has run for a worker that is not started yet. -/
def addPending : MainPC → Nat
  | MainPC.spawnWorker _ _ => 1
  | _ => 0

/-- Whether the handler is still before `go func() { wg.Wait(); ... }()`. -/
def launching : MainPC → Bool
  | MainPC.loop _ => true
  | MainPC.spawnWorker _ _ => true
  | MainPC.spawnCloser => true
  | _ => false

/-- The error with which a fetch fails: that of the first failing call. -/
def Attempt.failure (a : Attempt) : Option String :=
  match a.newRequestErr with
  | some err => some err
  | none =>
    match a.doErr with
    | some err => some err
    | none => a.readErr

/-- A worker that has effects left finishes with `wg.Done()`. -/
def Ended (w : List Event) : Prop := w = [] ∨ w.getLast? = some Event.wgDone

/-- Steps the handler goroutine (and the workers it still has to start) can
take at most. -/
def mainWeight : MainPC → Nat
  | MainPC.loop rest => 9 * rest.length + 4
  | MainPC.spawnWorker _ rest => 9 * rest.length + 12
  | MainPC.spawnCloser => 3
  | MainPC.collect => 2
  | MainPC.respond => 1
  | MainPC.returned => 0

/-- Steps the closer goroutine can take at most. -/
def closerWeight : CloserPC → Nat
  | CloserPC.notStarted => 2
  | CloserPC.waiting => 2
  | CloserPC.closing => 1
  | CloserPC.exited => 0

/-- Steps left for a worker, a pending send counting twice (the send and the
receive that takes it out of the buffer). -/
def workerWeight (w : List Event) : Nat := w.length + (sends w).length

/-- Upper bound on the number of steps the call can still take. -/
def measure (s : State) : Nat :=
  mainWeight s.pc + closerWeight s.closer + wsum workerWeight s.workers + s.buf.length

/-- The invariant of a dispatched batch for `urls` under the answers `att`. -/
structure Inv (att : Nat → Attempt) (urls : List String) (s : State) : Prop where
  notCrashed : s.crashed = false
  conserve : ∀ g : Result → Nat,
    wt g s.results + wt g s.buf + wsum (fun w => wt g (sends w)) s.workers
      + wt g (future att s.workers.length (pendingUrls s.pc)) = wt g (future att 0 urls)
  counter : s.wg = ((wsum countDone s.workers + addPending s.pc : Nat) : Int)
  ended : ∀ w ∈ s.workers, Ended w
  started : s.closer = CloserPC.notStarted ↔ launching s.pc = true
  quiet : s.closer = CloserPC.closing ∨ s.closer = CloserPC.exited →
    wsum countDone s.workers = 0
  closedIff : s.closed = true ↔ s.closer = CloserPC.exited
  drained : s.pc = MainPC.respond ∨ s.pc = MainPC.returned → s.buf = [] ∧ s.closed = true
  written : s.resp =
    if s.pc = MainPC.returned then
      some { status := 200, contentType := "application/json", body := Body.json s.results }
    else none
  wasDecoded : s.decoded = true
  capEq : s.cap = urls.length
  launched : s.workers.length + (pendingUrls s.pc).length = urls.length

/-! ## Lemmas on the bookkeeping functions -/

theorem wsum_nil (f : List Event → Nat) : wsum f [] = 0 := rfl

theorem wsum_cons (f : List Event → Nat) (w : List Event) (ws : List (List Event)) :
    wsum f (w :: ws) = f w + wsum f ws := by
  simp [wsum]

theorem wsum_snoc (f : List Event → Nat) (ws : List (List Event)) (w : List Event) :
    wsum f (ws ++ [w]) = wsum f ws + f w := by
  simp [wsum]

theorem wsum_set (f : List Event → Nat) (w2 : List Event) :
    ∀ (ws : List (List Event)) (i : Nat) (w : List Event), ws[i]? = some w →
      wsum f (ws.set i w2) + f w = wsum f ws + f w2 := by
  intro ws
  induction ws with
  | nil => intro i w h; simp at h
  | cons a t ih =>
    intro i w h
    cases i with
    | zero =>
      simp at h
      subst h
      simp [wsum_cons]
      omega
    | succ j =>
      simp at h
      have := ih j w h
      simp [wsum_cons]
      omega

theorem wsum_pos (f : List Event → Nat) :
    ∀ ws : List (List Event), 0 < wsum f ws → ∃ (i : Nat) (w : List Event), ws[i]? = some w ∧ 0 < f w := by
  intro ws
  induction ws with
  | nil => intro h; simp [wsum] at h
  | cons a t ih =>
    intro h
    rw [wsum_cons] at h
    by_cases ha : 0 < f a
    · exact ⟨0, a, by simp, ha⟩
    · obtain ⟨i, w, hi, hw⟩ := ih (by omega)
      exact ⟨i + 1, w, by simpa using hi, hw⟩

theorem wsum_zero (f : List Event → Nat) (ws : List (List Event)) (h : wsum f ws = 0) :
    ∀ w ∈ ws, f w = 0 := by
  induction ws with
  | nil => intro w hw; simp at hw
  | cons a t ih =>
    rw [wsum_cons] at h
    intro w hw
    rcases List.mem_cons.mp hw with rfl | hw
    · omega
    · exact ih (by omega) w hw

theorem wt_nil (g : Result → Nat) : wt g [] = 0 := rfl

theorem wt_cons (g : Result → Nat) (r : Result) (l : List Result) :
    wt g (r :: l) = g r + wt g l := by
  simp [wt]

theorem wt_append (g : Result → Nat) (l1 l2 : List Result) :
    wt g (l1 ++ l2) = wt g l1 + wt g l2 := by
  simp [wt]

theorem wt_indicator (a : Result) (l : List Result) :
    wt (fun x => if x = a then 1 else 0) l = l.count a := by
  induction l with
  | nil => rfl
  | cons b t ih =>
    rw [wt_cons, ih, List.count_cons]
    by_cases hb : b = a
    · subst hb; simp; omega
    · have : (b == a) = false := by simpa using hb
      simp [hb, this]

theorem perm_of_wt (l1 l2 : List Result) (h : ∀ g, wt g l1 = wt g l2) : l1.Perm l2 := by
  rw [List.perm_iff_count]
  intro a
  have := h (fun x => if x = a then 1 else 0)
  rwa [wt_indicator, wt_indicator] at this

theorem ended_tail (e : Event) (t : List Event) (h : Ended (e :: t)) : Ended t := by
  cases t with
  | nil => exact Or.inl rfl
  | cons b t2 =>
    rcases h with h | h
    · cases h
    · right
      simpa [List.getLast?_cons_cons] using h

theorem countDone_pos_of_ended :
    ∀ w : List Event, Ended w → w ≠ [] → 0 < countDone w := by
  intro w
  induction w with
  | nil => intro _ h; exact absurd rfl h
  | cons e t ih =>
    intro h _
    cases t with
    | nil =>
      rcases h with h | h
      · cases h
      · simp at h
        subst h
        simp [countDone]
    | cons b t2 =>
      have := ih (ended_tail e _ h) (by simp)
      cases e <;> simp [countDone] <;> omega

theorem ended_fetchURL (a : Attempt) (url : String) : Ended (fetchURL a url) := by
  right
  unfold fetchURL
  cases a.newRequestErr <;> cases a.doErr <;> cases a.readErr <;> rfl

theorem sends_fetchURL_length (a : Attempt) (url : String) :
    (sends (fetchURL a url)).length = 1 := by
  unfold fetchURL
  cases a.newRequestErr <;> cases a.doErr <;> cases a.readErr <;> rfl

theorem fetchURL_length_le (a : Attempt) (url : String) : (fetchURL a url).length ≤ 6 := by
  unfold fetchURL
  cases a.newRequestErr <;> cases a.doErr <;> cases a.readErr <;> simp

/-! ## Every step keeps the invariant and uses up the measure -/


theorem countDone_fetchURL (a : Attempt) (url : String) : countDone (fetchURL a url) = 1 := by
  unfold fetchURL
  cases a.newRequestErr <;> cases a.doErr <;> cases a.readErr <;> rfl

theorem workerWeight_fetchURL_le (a : Attempt) (url : String) :
    workerWeight (fetchURL a url) ≤ 7 := by
  have h1 := sends_fetchURL_length a url
  have h2 := fetchURL_length_le a url
  unfold workerWeight
  omega

theorem future_cons (att : Nat → Attempt) (k : Nat) (u : String) (rest : List String) :
    future att k (u :: rest) = sends (fetchURL (att k) u) ++ future att (k + 1) rest := rfl

theorem inv_execMain (att : Nat → Attempt) (urls : List String) (s : State)
    (h : Inv att urls s) (he : mainEnabled s = true) :
    Inv att urls (execMain att s) ∧ measure (execMain att s) < measure s := by
  obtain ⟨h1, h2, h3, h4, h5, h6, h7, h8, h9, h10, h11, h12⟩ := h
  rcases s with ⟨pc, closer, workers, wg, cap, buf, closed, results, decoded, resp, crashed⟩
  simp only at h1 h2 h3 h4 h5 h6 h7 h8 h9 h10 h11 h12
  cases pc with
  | loop rest =>
    cases rest with
    | nil =>
      refine ⟨⟨h1, ?_, ?_, h4, ?_, h6, h7, ?_, ?_, h10, h11, ?_⟩, ?_⟩
      all_goals simp_all [execMain, measure, mainWeight, launching, pendingUrls, addPending]
    | cons u rest =>
      refine ⟨⟨h1, ?_, ?_, h4, ?_, h6, h7, ?_, ?_, h10, h11, ?_⟩, ?_⟩
      all_goals simp_all [execMain, measure, mainWeight, launching, pendingUrls, addPending]
      all_goals omega
  | spawnWorker u rest =>
    have hc := countDone_fetchURL (att workers.length) u
    have hw := workerWeight_fetchURL_le (att workers.length) u
    have hf := ended_fetchURL (att workers.length) u
    refine ⟨⟨h1, ?_, ?_, ?_, ?_, ?_, h7, ?_, ?_, h10, h11, ?_⟩, ?_⟩
    · intro g
      have := h2 g
      simp only [execMain, pendingUrls, future_cons, wt_append, wsum_snoc,
        List.length_append, List.length_singleton] at this ⊢
      omega
    · simp only [execMain, addPending, wsum_snoc, hc] at h3 ⊢
      omega
    · intro w hw2
      simp only [execMain, List.mem_append, List.mem_singleton] at hw2
      rcases hw2 with hw2 | rfl
      · exact h4 w hw2
      · exact hf
    · simpa [execMain, launching] using h5
    · intro hq
      simp only [execMain] at hq
      simp [launching] at h5
      rcases hq with hq | hq <;> simp [hq] at h5
    · simp [execMain]
    · simpa [execMain] using h9
    · simp only [execMain, pendingUrls, List.length_append, List.length_cons,
        List.length_nil] at h12 ⊢
      omega
    · simp only [execMain, measure, mainWeight, wsum_snoc]
      omega
  | spawnCloser =>
    refine ⟨⟨h1, ?_, ?_, h4, ?_, ?_, ?_, ?_, ?_, h10, h11, ?_⟩, ?_⟩
    all_goals simp_all [execMain, measure, mainWeight, launching, pendingUrls, addPending, closerWeight]
  | collect =>
    cases buf with
    | nil =>
      cases closed with
      | false => simp [mainEnabled] at he
      | true =>
        refine ⟨⟨h1, ?_, ?_, h4, ?_, h6, h7, ?_, ?_, h10, h11, ?_⟩, ?_⟩
        all_goals simp_all [execMain, measure, mainWeight, launching, pendingUrls, addPending, closerWeight]
    | cons r rest =>
      refine ⟨⟨h1, ?_, ?_, h4, ?_, h6, h7, ?_, ?_, h10, h11, ?_⟩, ?_⟩
      · intro g
        have := h2 g
        simp only [execMain, pendingUrls, wt_append, wt_cons, wt_nil] at this ⊢
        omega
      · simpa [execMain, addPending] using h3
      · simpa [execMain, launching] using h5
      · simp [execMain]
      · simpa [execMain] using h9
      · simpa [execMain] using h12
      · simp [execMain, measure]
  | respond =>
    refine ⟨⟨h1, ?_, ?_, h4, ?_, h6, h7, ?_, ?_, h10, h11, ?_⟩, ?_⟩
    all_goals simp_all [execMain, measure, mainWeight, launching, pendingUrls, addPending, closerWeight]
  | returned => simp [mainEnabled] at he

theorem inv_execCloser (att : Nat → Attempt) (urls : List String) (s : State)
    (h : Inv att urls s) (he : closerEnabled s = true) :
    Inv att urls (execCloser s) ∧ measure (execCloser s) < measure s ∧
      (execCloser s).pc = s.pc := by
  obtain ⟨h1, h2, h3, h4, h5, h6, h7, h8, h9, h10, h11, h12⟩ := h
  rcases s with ⟨pc, closer, workers, wg, cap, buf, closed, results, decoded, resp, crashed⟩
  simp only at h1 h2 h3 h4 h5 h6 h7 h8 h9 h10 h11 h12
  cases closer with
  | notStarted => simp [closerEnabled] at he
  | exited => simp [closerEnabled] at he
  | waiting =>
    have hwg : wg = 0 := by simpa [closerEnabled] using he
    subst hwg
    have hp : launching pc = false := by simpa using h5
    have ha : addPending pc = 0 := by
      cases pc <;> simp [launching] at hp <;> rfl
    have hx : execCloser ⟨pc, CloserPC.waiting, workers, 0, cap, buf, closed, results, decoded,
        resp, crashed⟩ = ⟨pc, CloserPC.closing, workers, 0, cap, buf, closed, results, decoded,
        resp, crashed⟩ := by simp [execCloser]
    rw [hx]
    refine ⟨⟨h1, h2, h3, h4, ?_, ?_, ?_, h8, h9, h10, h11, h12⟩, ?_, rfl⟩
    · simpa using hp
    · intro _
      simp only at h3 ⊢
      omega
    · simpa using h7
    · simp [measure, closerWeight]
  | closing =>
    have hcl : closed = false := by simpa using h7
    subst hcl
    have hp : launching pc = false := by simpa using h5
    have hx : execCloser ⟨pc, CloserPC.closing, workers, wg, cap, buf, false, results, decoded,
        resp, crashed⟩ = ⟨pc, CloserPC.exited, workers, wg, cap, buf, true, results, decoded,
        resp, crashed⟩ := by simp [execCloser]
    rw [hx]
    refine ⟨⟨h1, h2, h3, h4, ?_, ?_, ?_, ?_, h9, h10, h11, h12⟩, ?_, rfl⟩
    · simpa using hp
    · intro _
      exact h6 (Or.inl rfl)
    · simp
    · intro hq
      have := h8 hq
      simp at this
    · simp [measure, closerWeight]

theorem ended_set (ws : List (List Event)) (i : Nat) (e : Event) (rest : List Event)
    (h : ∀ w ∈ ws, Ended w) (hi : ws[i]? = some (e :: rest)) :
    ∀ w ∈ ws.set i rest, Ended w := by
  intro w hw
  rcases List.mem_or_eq_of_mem_set hw with hw | rfl
  · exact h w hw
  · exact ended_tail e _ (h _ (List.getElem?_mem hi))

theorem open_of_running (att : Nat → Attempt) (urls : List String) (s : State)
    (h : Inv att urls s) (i : Nat) (e : Event) (rest : List Event)
    (hi : s.workers[i]? = some (e :: rest)) : s.closed = false := by
  cases hc : s.closed with
  | false => rfl
  | true =>
    have hz := h.quiet (Or.inr (h.closedIff.mp hc))
    have hm := List.getElem?_mem hi
    have := countDone_pos_of_ended _ (h.ended _ hm) (by simp)
    have := wsum_zero countDone _ hz _ hm
    omega

theorem inv_execWorker (att : Nat → Attempt) (urls : List String) (s : State)
    (h : Inv att urls s) (i : Nat) (w : List Event) (hi : s.workers[i]? = some w)
    (he : workerEnabled s w = true) :
    Inv att urls (execWorker s i) ∧ measure (execWorker s i) < measure s ∧
      (execWorker s i).pc = s.pc := by
  cases w with
  | nil => simp [workerEnabled] at he
  | cons e rest =>
    have hopen := open_of_running att urls s h i e rest hi
    have hend := ended_set s.workers i e rest h.ended hi
    have hcd := wsum_set countDone rest s.workers i _ hi
    have hww := wsum_set workerWeight rest s.workers i _ hi
    have hsd := fun g : Result → Nat => wsum_set (fun w => wt g (sends w)) rest s.workers i _ hi
    obtain ⟨h1, h2, h3, h4, h5, h6, h7, h8, h9, h10, h11, h12⟩ := h
    rcases s with ⟨pc, closer, workers, wg, cap, buf, closed, results, decoded, resp, crashed⟩
    simp only at h1 h2 h3 h4 h5 h6 h7 h8 h9 h10 h11 h12 hi hopen hend hcd hww hsd
    subst hopen
    cases e
    case send r =>
      have hlt : buf.length < cap := by simpa [workerEnabled] using he
      have hx : execWorker ⟨pc, closer, workers, wg, cap, buf, false, results, decoded, resp,
          crashed⟩ i = ⟨pc, closer, workers.set i rest, wg, cap, buf ++ [r], false, results,
          decoded, resp, crashed⟩ := by simp [execWorker, hi, hlt]
      rw [hx]
      refine ⟨⟨h1, ?_, ?_, hend, h5, ?_, h7, ?_, h9, h10, h11,
        by simpa using h12⟩, ?_, rfl⟩
      · intro g
        have := h2 g
        have := hsd g
        simp only [sends, wt_cons, wt_append, wt_nil, List.length_set] at *
        omega
      · simp only [countDone] at hcd
        simp only [] at h3 ⊢
        omega
      · intro hq
        have := h6 hq
        simp only [countDone] at hcd
        simp only [] at this ⊢
        omega
      · intro hq
        have := h8 hq
        simp at this
      · simp only [measure, workerWeight, sends, List.length_cons, List.length_append,
          List.length_singleton, List.length_nil] at hww ⊢
        omega
    case wgDone =>
      simp only [countDone] at hcd
      have hpos : ¬ wg ≤ 0 := by omega
      have hx : execWorker ⟨pc, closer, workers, wg, cap, buf, false, results, decoded, resp,
          crashed⟩ i = ⟨pc, closer, workers.set i rest, wg - 1, cap, buf, false, results,
          decoded, resp, crashed⟩ := by simp [execWorker, hi, hpos]
      rw [hx]
      refine ⟨⟨h1, ?_, ?_, hend, h5, ?_, h7, h8, h9, h10, h11,
        by simpa using h12⟩, ?_, rfl⟩
      · intro g
        have := h2 g
        have := hsd g
        simp only [sends, List.length_set] at *
        omega
      · simp only [] at h3 ⊢
        omega
      · intro hq
        have := h6 hq
        simp only [] at this ⊢
        omega
      · simp only [measure, workerWeight, sends, List.length_cons] at hww ⊢
        omega
    all_goals
      have hx : execWorker ⟨pc, closer, workers, wg, cap, buf, false, results, decoded, resp,
          crashed⟩ i = ⟨pc, closer, workers.set i rest, wg, cap, buf, false, results,
          decoded, resp, crashed⟩ := by simp [execWorker, hi]
      rw [hx]
      refine ⟨⟨h1, ?_, ?_, hend, h5, ?_, h7, h8, h9, h10, h11,
        by simpa using h12⟩, ?_, rfl⟩
      · intro g
        have := h2 g
        have := hsd g
        simp only [sends, List.length_set] at *
        omega
      · simp only [countDone] at hcd
        simp only [] at h3 ⊢
        omega
      · intro hq
        have := h6 hq
        simp only [countDone] at hcd
        simp only [] at this ⊢
        omega
      · simp only [measure, workerWeight, sends, List.length_cons] at hww ⊢
        omega

/-! ## Schedules -/

theorem mem_enabledTids (s : State) (t : Tid) (h : t ∈ enabledTids s) : enabled s t = true := by
  unfold enabledTids at h
  split at h
  · simp at h
  · exact (List.mem_filter.mp h).2

theorem worker_mem_enabledTids (s : State) (i : Nat) (w : List Event) (hc : s.crashed = false)
    (hi : s.workers[i]? = some w) (he : workerEnabled s w = true) :
    Tid.worker i ∈ enabledTids s := by
  have hlt : i < s.workers.length := (List.getElem?_eq_some_iff.mp hi).1
  simp [enabledTids, hc, allTids, enabled, hi, he, hlt]

theorem inv_exec (att : Nat → Attempt) (urls : List String) (s : State) (h : Inv att urls s)
    (t : Tid) (ht : t ∈ enabledTids s) :
    Inv att urls (exec att s t) ∧ measure (exec att s t) < measure s ∧
      (s.pc = MainPC.returned → (exec att s t).pc = MainPC.returned) := by
  have he := mem_enabledTids s t ht
  cases t with
  | main =>
    have := inv_execMain att urls s h he
    refine ⟨this.1, this.2, ?_⟩
    intro hp
    simp [enabled, mainEnabled, hp] at he
  | closer =>
    have := inv_execCloser att urls s h he
    exact ⟨this.1, this.2.1, fun hp => by rw [exec, this.2.2, hp]⟩
  | worker i =>
    simp only [enabled] at he
    cases hi : s.workers[i]? with
    | none => simp [hi] at he
    | some w =>
      simp only [hi] at he
      have := inv_execWorker att urls s h i w hi he
      exact ⟨this.1, this.2.1, fun hp => by rw [exec, this.2.2, hp]⟩

theorem progress (att : Nat → Attempt) (urls : List String) (hne : urls ≠ []) (s : State)
    (h : Inv att urls s) (hp : s.pc ≠ MainPC.returned) : enabledTids s ≠ [] := by
  have hmain : mainEnabled s = true → enabledTids s ≠ [] := by
    intro hm
    have : Tid.main ∈ enabledTids s := by simp [enabledTids, h.notCrashed, allTids, enabled, hm]
    exact List.ne_nil_of_mem this
  have hcloser : closerEnabled s = true → enabledTids s ≠ [] := by
    intro hm
    have : Tid.closer ∈ enabledTids s := by
      simp [enabledTids, h.notCrashed, allTids, enabled, hm]
    exact List.ne_nil_of_mem this
  cases hpc : s.pc with
  | returned => exact absurd hpc hp
  | loop rest => exact hmain (by simp [mainEnabled, hpc])
  | spawnWorker u rest => exact hmain (by simp [mainEnabled, hpc])
  | spawnCloser => exact hmain (by simp [mainEnabled, hpc])
  | respond => exact hmain (by simp [mainEnabled, hpc])
  | collect =>
    cases hb : s.buf with
    | cons r rest => exact hmain (by simp [mainEnabled, hpc, hb])
    | nil =>
      cases hcl : s.closed with
      | true => exact hmain (by simp [mainEnabled, hpc, hcl])
      | false =>
        have hns : s.closer ≠ CloserPC.notStarted := by
          intro hq
          have := h.started.mp hq
          simp [hpc, launching] at this
        have hne2 : s.closer ≠ CloserPC.exited := by
          intro hq
          have := h.closedIff.mpr hq
          simp [hcl] at this
        cases hcs : s.closer with
        | notStarted => exact absurd hcs hns
        | exited => exact absurd hcs hne2
        | closing => exact hcloser (by simp [closerEnabled, hcs])
        | waiting =>
          by_cases hwg : s.wg = 0
          · exact hcloser (by simp [closerEnabled, hcs, hwg])
          · have hc := h.counter
            simp only [hpc, addPending] at hc
            have hpos : 0 < wsum countDone s.workers := by omega
            obtain ⟨i, w, hi, hw⟩ := wsum_pos countDone s.workers hpos
            have hcap : 0 < s.cap := by
              rw [h.capEq]
              exact List.length_pos.mpr hne
            have hen : workerEnabled s w = true := by
              cases w with
              | nil => simp [countDone] at hw
              | cons e rest => cases e <;> simp [workerEnabled, hb, hcap]
            exact List.ne_nil_of_mem (worker_mem_enabledTids s i w h.notCrashed hi hen)

theorem inv_step (att : Nat → Attempt) (urls : List String) (hne : urls ≠ []) (s : State)
    (h : Inv att urls s) (c n : Nat) (hm : s.pc = MainPC.returned ∨ measure s ≤ n + 1) :
    Inv att urls (step att s c) ∧
      ((step att s c).pc = MainPC.returned ∨ measure (step att s c) ≤ n) := by
  unfold step
  cases hl : enabledTids s with
  | nil =>
    have hp : s.pc = MainPC.returned := by
      by_contra hp
      exact progress att urls hne s h hp hl
    simpa using ⟨h, Or.inl hp⟩
  | cons t ts =>
    have hlt : c % (t :: ts).length < (t :: ts).length := Nat.mod_lt _ (by simp)
    have hget : (t :: ts)[c % (t :: ts).length]? = some ((t :: ts)[c % (t :: ts).length]) :=
      List.getElem?_eq_getElem hlt
    have hmem : (t :: ts)[c % (t :: ts).length] ∈ enabledTids s := by
      rw [hl]
      exact List.getElem_mem hlt
    simp only [hget]
    have := inv_exec att urls s h _ hmem
    refine ⟨this.1, ?_⟩
    rcases hm with hm | hm
    · exact Or.inl (this.2.2 hm)
    · right
      have := this.2.1
      omega

theorem inv_run (att : Nat → Attempt) (urls : List String) (hne : urls ≠ []) :
    ∀ (sched : List Nat) (s : State), Inv att urls s →
      (s.pc = MainPC.returned ∨ measure s ≤ sched.length) →
      Inv att urls (run att s sched) ∧
        ((run att s sched).pc = MainPC.returned ∨ measure (run att s sched) = 0) := by
  intro sched
  induction sched with
  | nil =>
    intro s h hm
    refine ⟨h, ?_⟩
    rcases hm with hm | hm
    · exact Or.inl hm
    · right
      simpa using hm
  | cons c cs ih =>
    intro s h hm
    have := inv_step att urls hne s h c cs.length (by simpa using hm)
    exact ih (step att s c) this.1 this.2

theorem inv_run_any (att : Nat → Attempt) (urls : List String) (hne : urls ≠ []) :
    ∀ (sched : List Nat) (s : State), Inv att urls s → Inv att urls (run att s sched) := by
  intro sched
  induction sched with
  | nil => intro s h; exact h
  | cons c cs ih =>
    intro s h
    exact ih (step att s c) (inv_step att urls hne s h c (measure s) (Or.inr (by omega))).1

theorem returned_of_measure_zero (s : State) (h : measure s = 0) : s.pc = MainPC.returned := by
  unfold measure at h
  cases hpc : s.pc <;> simp [hpc, mainWeight] at h ⊢

theorem inv_dispatch (att : Nat → Attempt) (urls : List String) :
    Inv att urls (dispatch urls) := by
  refine ⟨rfl, ?_, ?_, ?_, ?_, ?_, ?_, ?_, ?_, rfl, rfl, ?_⟩
  all_goals simp [dispatch, wt_nil, wsum_nil, pendingUrls, addPending, launching]

theorem measure_dispatch (urls : List String) :
    measure (dispatch urls) = stepBound urls.length := by
  simp [measure, dispatch, mainWeight, closerWeight, wsum_nil, stepBound]

/-! ## What a dispatched batch returns -/

theorem wsum_eq_zero (f : List Event → Nat) (ws : List (List Event))
    (h : ∀ w ∈ ws, f w = 0) : wsum f ws = 0 := by
  induction ws with
  | nil => rfl
  | cons a t ih =>
    rw [wsum_cons, h a (by simp), ih (fun w hw => h w (by simp [hw]))]

theorem workers_done (att : Nat → Attempt) (urls : List String) (s : State)
    (h : Inv att urls s) (hp : s.pc = MainPC.returned) : ∀ w ∈ s.workers, w = [] := by
  intro w hw
  have hcl := (h.drained (Or.inr hp)).2
  have hz := h.quiet (Or.inr (h.closedIff.mp hcl))
  have h0 := wsum_zero countDone _ hz w hw
  by_contra hne
  have := countDone_pos_of_ended w (h.ended w hw) hne
  omega

theorem results_perm (att : Nat → Attempt) (urls : List String) (s : State)
    (h : Inv att urls s) (hp : s.pc = MainPC.returned) :
    s.results.Perm (future att 0 urls) := by
  apply perm_of_wt
  intro g
  have hc := h.conserve g
  have hb := (h.drained (Or.inr hp)).1
  have hw : wsum (fun w => wt g (sends w)) s.workers = 0 := by
    apply wsum_eq_zero
    intro w hw
    rw [workers_done att urls s h hp w hw]
    rfl
  rw [hb, hw, hp] at hc
  simpa [pendingUrls, future, wt_nil] using hc

theorem dispatch_returns (att : Nat → Attempt) (urls : List String) (hne : urls ≠ [])
    (sched : List Nat) (hs : stepBound urls.length ≤ sched.length) :
    (run att (dispatch urls) sched).pc = MainPC.returned ∧
    (run att (dispatch urls) sched).crashed = false ∧
    (run att (dispatch urls) sched).resp =
      some { status := 200, contentType := "application/json",
             body := Body.json (run att (dispatch urls) sched).results } ∧
    (run att (dispatch urls) sched).results.Perm (future att 0 urls) ∧
    (run att (dispatch urls) sched).workers = List.replicate urls.length [] := by
  have hr := inv_run att urls hne sched (dispatch urls) (inv_dispatch att urls)
    (Or.inr (by rw [measure_dispatch]; exact hs))
  have hp : (run att (dispatch urls) sched).pc = MainPC.returned := by
    rcases hr.2 with hp | hp
    · exact hp
    · exact returned_of_measure_zero _ hp
  refine ⟨hp, hr.1.notCrashed, ?_, results_perm att urls _ hr.1 hp, ?_⟩
  · have := hr.1.written
    rwa [if_pos hp] at this
  · have hl := hr.1.launched
    rw [hp] at hl
    rw [List.eq_replicate_iff]
    exact ⟨by simpa [pendingUrls] using hl, workers_done att urls _ hr.1 hp⟩

theorem fetchHandler_accept (decode : String → Except String RequestPayload)
    (att : Nat → Attempt) (r : Request) (sched : List Nat) (p : RequestPayload)
    (hm : r.method = "POST") (hd : decode r.body = Except.ok p) (hne : p.Urls ≠ []) :
    fetchHandler decode att r sched = run att (dispatch p.Urls) sched := by
  have : ¬ p.Urls.length = 0 := by
    intro h
    exact hne (List.length_eq_zero.mp h)
  simp [fetchHandler, hm, hd, this]

theorem sends_fetchURL (a : Attempt) (url : String) :
    sends (fetchURL a url) =
      [match a.failure with
        | some err => { URL := url, Data := "", Err := err }
        | none => { URL := url, Data := a.body, Err := "" }] := by
  unfold fetchURL Attempt.failure
  cases a.newRequestErr <;> cases a.doErr <;> cases a.readErr <;> rfl

theorem future_urls (att : Nat → Attempt) (urls : List String) :
    ∀ k, (future att k urls).map Result.URL = urls := by
  induction urls with
  | nil => intro k; rfl
  | cons u rest ih =>
    intro k
    rw [future_cons, List.map_append, ih (k + 1), sends_fetchURL]
    cases (att k).failure <;> rfl

theorem future_length (att : Nat → Attempt) (urls : List String) (k : Nat) :
    (future att k urls).length = urls.length := by
  rw [← List.length_map (future att k urls) Result.URL, future_urls]

theorem future_all_ok (att : Nat → Attempt) (urls : List String) :
    ∀ k, (∀ i, k ≤ i → i < k + urls.length →
        (att i).newRequestErr = none ∧ (att i).doErr = none ∧ (att i).readErr = none) →
      future att k urls =
        (urls.enumFrom k).map (fun iu => { URL := iu.2, Data := (att iu.1).body, Err := "" }) := by
  induction urls with
  | nil => intro k _; rfl
  | cons u rest ih =>
    intro k h
    have hk := h k (Nat.le_refl k) (by simp)
    rw [future_cons, sends_fetchURL, ih (k + 1) (fun i h1 h2 => h i (by omega) (by simp; omega))]
    simp [Attempt.failure, hk.1, hk.2.1, hk.2.2, List.enumFrom]

theorem mem_future (att : Nat → Attempt) :
    ∀ (urls : List String) (k : Nat) (x : Result), x ∈ future att k urls →
      ∃ i, i < urls.length ∧ urls[i]? = some x.URL ∧
        sends (fetchURL (att (k + i)) x.URL) = [x] := by
  intro urls
  induction urls with
  | nil => intro k x hx; simp [future] at hx
  | cons u rest ih =>
    intro k x hx
    rw [future_cons, List.mem_append] at hx
    rcases hx with hx | hx
    · have hs := sends_fetchURL (att k) u
      rw [hs, List.mem_singleton] at hx
      have hu : x.URL = u := by
        rw [hx]
        cases (att k).failure <;> rfl
      refine ⟨0, by simp, by simp [hu], ?_⟩
      rw [hu, Nat.add_zero, hs, hx]
    · obtain ⟨i, hi, hu, hs⟩ := ih (k + 1) x hx
      refine ⟨i + 1, by simpa using hi, by simpa using hu, ?_⟩
      rw [show k + (i + 1) = k + 1 + i by omega]
      exact hs

theorem result_shape (a : Attempt) (url : String) (r : Result)
    (hs : sends (fetchURL a url) = [r]) (herr : a.failure ≠ some "") :
    ¬ (r.Data ≠ "" ∧ r.Err ≠ "") ∧
      (a.failure = none ∧ a.body = "" → r.Data = "" ∧ r.Err = "") ∧
      (¬ (a.failure = none ∧ a.body = "") →
        (r.Data ≠ "" ∧ r.Err = "") ∨ (r.Data = "" ∧ r.Err ≠ "")) := by
  rw [sends_fetchURL] at hs
  have hr := List.singleton_inj.mp hs
  subst hr
  cases hf : a.failure with
  | none => simp
  | some e =>
    have : e ≠ "" := by
      intro h
      exact herr (by rw [hf, h])
    simp [this]

theorem sample_errors_nonempty :
    ∀ i, i < 3 → (sampleAttempts i).failure ≠ some "" := by
  intro i _
  unfold sampleAttempts
  split <;> decide

theorem sample_bound : stepBound 3 ≤ sampleSchedule.length := by
  simp [stepBound, sampleSchedule]

/-! ## The order of the entries depends on the schedule -/

set_option maxRecDepth 100000 in
theorem sample_order_launch :
    (fetchHandler sampleDecode sampleAttempts samplePost sampleSchedule).results =
      [{ URL := "http://a.test", Data := "ok", Err := "" },
       { URL := "http://b.test", Data := "", Err := "context deadline exceeded" },
       { URL := "http://a.test", Data := "ok", Err := "" }] := by
  rfl

set_option maxRecDepth 100000 in
theorem sample_order_late :
    (fetchHandler sampleDecode sampleAttempts samplePost sampleScheduleLate).results =
      [{ URL := "http://a.test", Data := "ok", Err := "" },
       { URL := "http://a.test", Data := "ok", Err := "" },
       { URL := "http://b.test", Data := "", Err := "context deadline exceeded" }] := by
  rfl

/-! ## The claims -/

/-- C1: for an accepted request (POST, decodable body, non-empty URL list of
length N), whatever the outcomes of the fetches and whatever the interleaving
of the goroutines, the array written to the response has exactly N entries and
the URLs of its entries are the input URLs up to order, with multiplicity. -/
theorem fetchHandler_one_entry_per_url (decode : String → Except String RequestPayload)
    (att : Nat → Attempt) (r : Request) (sched : List Nat) (p : RequestPayload)
    (hm : r.method = "POST") (hd : decode r.body = Except.ok p) (hne : p.Urls ≠ [])
    (hs : stepBound p.Urls.length ≤ sched.length) :
    (fetchHandler decode att r sched).resp =
        some { status := 200, contentType := "application/json",
               body := Body.json (fetchHandler decode att r sched).results } ∧
      (fetchHandler decode att r sched).results.length = p.Urls.length ∧
      ((fetchHandler decode att r sched).results.map Result.URL).Perm p.Urls := by
  rw [fetchHandler_accept decode att r sched p hm hd hne]
  have h := dispatch_returns att p.Urls hne sched hs
  have hp := h.2.2.2.1
  refine ⟨h.2.2.1, ?_, ?_⟩
  · rw [hp.length_eq, future_length]
  · have := hp.map Result.URL
    rwa [future_urls] at this

theorem fetchHandler_one_entry_per_url_witness :
    samplePost.method = "POST" ∧
      sampleDecode samplePost.body =
        Except.ok { Urls := ["http://a.test", "http://b.test", "http://a.test"] } ∧
      (fetchHandler sampleDecode sampleAttempts samplePost sampleSchedule).results.length = 3 ∧
      ((fetchHandler sampleDecode sampleAttempts samplePost sampleSchedule).results.map
        Result.URL).Perm ["http://a.test", "http://b.test", "http://a.test"] :=
  ⟨rfl, rfl,
    (fetchHandler_one_entry_per_url sampleDecode sampleAttempts samplePost sampleSchedule
      { Urls := ["http://a.test", "http://b.test", "http://a.test"] } rfl rfl
      (List.cons_ne_nil _ _) sample_bound).2⟩

/-- C2 fails as stated: a fetch that succeeds with an empty response body
produces a Result whose data and error are both empty. -/
theorem fetchURL_empty_body_both_empty :
    sends (fetchURL { newRequestErr := none, doErr := none, body := "", readErr := none }
        "http://a.test/empty") =
      [{ URL := "http://a.test/empty", Data := "", Err := "" }] := by
  rfl

/-- C2, amended: for every outcome of the fetch (an error carrying a non-empty
text), `fetchURL` sends one Result in which data and error are never both
non-empty, exactly one of them is non-empty unless the fetch completed with an
empty response body, and both are empty in that case.  Every entry of the
array an accepted batch writes to the response is the Result sent by one of its
workers for that entry's URL, and so has the same property. -/
theorem fetchURL_data_error_exclusive (a : Attempt) (url : String)
    (herr : a.failure ≠ some "") :
    (∃ r, sends (fetchURL a url) = [r] ∧ ¬ (r.Data ≠ "" ∧ r.Err ≠ "") ∧
      (a.failure = none ∧ a.body = "" → r.Data = "" ∧ r.Err = "") ∧
      (¬ (a.failure = none ∧ a.body = "") →
        (r.Data ≠ "" ∧ r.Err = "") ∨ (r.Data = "" ∧ r.Err ≠ ""))) ∧
    (∀ (decode : String → Except String RequestPayload) (att : Nat → Attempt) (r : Request)
      (sched : List Nat) (p : RequestPayload), r.method = "POST" →
      decode r.body = Except.ok p → p.Urls ≠ [] → stepBound p.Urls.length ≤ sched.length →
      (∀ i, i < p.Urls.length → (att i).failure ≠ some "") →
      ∀ x ∈ (fetchHandler decode att r sched).results,
        ∃ i, i < p.Urls.length ∧ p.Urls[i]? = some x.URL ∧
          sends (fetchURL (att i) x.URL) = [x] ∧ ¬ (x.Data ≠ "" ∧ x.Err ≠ "") ∧
          ((att i).failure = none ∧ (att i).body = "" → x.Data = "" ∧ x.Err = "") ∧
          (¬ ((att i).failure = none ∧ (att i).body = "") →
            (x.Data ≠ "" ∧ x.Err = "") ∨ (x.Data = "" ∧ x.Err ≠ ""))) := by
  constructor
  · exact ⟨_, sends_fetchURL a url, result_shape a url _ (sends_fetchURL a url) herr⟩
  · intro decode att r sched p hm hd hne hs hatt x hx
    rw [fetchHandler_accept decode att r sched p hm hd hne] at hx
    have hp := (dispatch_returns att p.Urls hne sched hs).2.2.2.1
    obtain ⟨i, hi, hu, hsx⟩ := mem_future att p.Urls 0 x (hp.mem_iff.mp hx)
    rw [Nat.zero_add] at hsx
    exact ⟨i, hi, hu, hsx, result_shape (att i) x.URL x hsx (hatt i hi)⟩

theorem fetchURL_data_error_exclusive_witness :
    (sampleAttempts 1).failure ≠ some "" ∧
      (∃ r, sends (fetchURL (sampleAttempts 1) "http://b.test") = [r] ∧
        ¬ (r.Data ≠ "" ∧ r.Err ≠ "") ∧
        ((sampleAttempts 1).failure = none ∧ (sampleAttempts 1).body = "" →
          r.Data = "" ∧ r.Err = "") ∧
        (¬ ((sampleAttempts 1).failure = none ∧ (sampleAttempts 1).body = "") →
          (r.Data ≠ "" ∧ r.Err = "") ∨ (r.Data = "" ∧ r.Err ≠ ""))) ∧
      (∀ x ∈ (fetchHandler sampleDecode sampleAttempts samplePost sampleSchedule).results,
        ∃ i, i < 3 ∧
          ["http://a.test", "http://b.test", "http://a.test"][i]? = some x.URL ∧
          sends (fetchURL (sampleAttempts i) x.URL) = [x] ∧ ¬ (x.Data ≠ "" ∧ x.Err ≠ "") ∧
          ((sampleAttempts i).failure = none ∧ (sampleAttempts i).body = "" →
            x.Data = "" ∧ x.Err = "") ∧
          (¬ ((sampleAttempts i).failure = none ∧ (sampleAttempts i).body = "") →
            (x.Data ≠ "" ∧ x.Err = "") ∨ (x.Data = "" ∧ x.Err ≠ ""))) :=
  ⟨by decide,
    (fetchURL_data_error_exclusive (sampleAttempts 1) "http://b.test" (by decide)).1,
    (fetchURL_data_error_exclusive (sampleAttempts 1) "http://b.test" (by decide)).2
      sampleDecode sampleAttempts samplePost sampleSchedule
      { Urls := ["http://a.test", "http://b.test", "http://a.test"] } rfl rfl
      (List.cons_ne_nil _ _) sample_bound sample_errors_nonempty⟩

/-- C3: whatever the outcome of the fetch, the effects of `fetchURL` contain
exactly one send, of a Result carrying the input URL, and exactly one
`wg.Done()`, which comes after the send.  In an accepted batch every launched
worker performs all of its effects: none stays blocked and none panics. -/
theorem fetchURL_sends_once (a : Attempt) (url : String) :
    (∃ pre r post, fetchURL a url = pre ++ Event.send r :: post ∧ r.URL = url ∧
      sends pre = [] ∧ countDone pre = 0 ∧ sends post = [] ∧ countDone post = 1) ∧
    (∀ (decode : String → Except String RequestPayload) (att : Nat → Attempt) (r : Request)
      (sched : List Nat) (p : RequestPayload), r.method = "POST" →
      decode r.body = Except.ok p → p.Urls ≠ [] → stepBound p.Urls.length ≤ sched.length →
      (fetchHandler decode att r sched).workers = List.replicate p.Urls.length [] ∧
        (fetchHandler decode att r sched).crashed = false) := by
  constructor
  · unfold fetchURL
    cases h1 : a.newRequestErr with
    | some e =>
      exact ⟨[Event.newRequest url], _, [Event.wgDone], rfl, rfl, rfl, rfl, rfl, rfl⟩
    | none =>
      cases h2 : a.doErr with
      | some e =>
        exact ⟨[Event.newRequest url, Event.clientDo], _, [Event.wgDone], rfl, rfl, rfl, rfl,
          rfl, rfl⟩
      | none =>
        cases h3 : a.readErr with
        | some e =>
          exact ⟨[Event.newRequest url, Event.clientDo, Event.readAll], _,
            [Event.bodyClose, Event.wgDone], rfl, rfl, rfl, rfl, rfl, rfl⟩
        | none =>
          exact ⟨[Event.newRequest url, Event.clientDo, Event.readAll], _,
            [Event.bodyClose, Event.wgDone], rfl, rfl, rfl, rfl, rfl, rfl⟩
  · intro decode att r sched p hm hd hne hs
    rw [fetchHandler_accept decode att r sched p hm hd hne]
    have h := dispatch_returns att p.Urls hne sched hs
    exact ⟨h.2.2.2.2, h.2.1⟩

theorem fetchURL_sends_once_witness :
    (fetchHandler sampleDecode sampleAttempts samplePost sampleSchedule).workers =
        List.replicate 3 [] ∧
      (fetchHandler sampleDecode sampleAttempts samplePost sampleSchedule).crashed = false :=
  (fetchURL_sends_once (sampleAttempts 1) "http://b.test").2 sampleDecode sampleAttempts
    samplePost sampleSchedule { Urls := ["http://a.test", "http://b.test", "http://a.test"] }
    rfl rfl (List.cons_ne_nil _ _) sample_bound

/-- C4: a POST request whose body decodes to an empty URL list is answered with
status 400 and the text "No URLs provided"; no worker is launched, the closer
goroutine is not started and no results are collected or written. -/
theorem fetchHandler_empty_urls (decode : String → Except String RequestPayload)
    (att : Nat → Attempt) (r : Request) (sched : List Nat) (p : RequestPayload)
    (hm : r.method = "POST") (hd : decode r.body = Except.ok p) (he : p.Urls.length = 0) :
    (fetchHandler decode att r sched).resp =
        some { status := 400, contentType := "text/plain; charset=utf-8",
               body := Body.text "No URLs provided\n" } ∧
      Body.contains (Body.text "No URLs provided\n") "No URLs provided" ∧
      (fetchHandler decode att r sched).workers = [] ∧
      (fetchHandler decode att r sched).closer = CloserPC.notStarted ∧
      (fetchHandler decode att r sched).results = [] := by
  have hx : fetchHandler decode att r sched = rejected true (httpError "No URLs provided" 400) := by
    simp [fetchHandler, hm, hd, he]
  rw [hx]
  refine ⟨rfl, ?_, rfl, rfl, rfl⟩
  exact ⟨[], "\n".data, rfl⟩

theorem fetchHandler_empty_urls_witness :
    samplePost.method = "POST" ∧
      sampleDecodeEmpty samplePost.body = Except.ok { Urls := [] } ∧
      (fetchHandler sampleDecodeEmpty sampleAttempts samplePost sampleSchedule).resp =
        some { status := 400, contentType := "text/plain; charset=utf-8",
               body := Body.text "No URLs provided\n" } ∧
      (fetchHandler sampleDecodeEmpty sampleAttempts samplePost sampleSchedule).workers = [] :=
  ⟨rfl, rfl,
    (fetchHandler_empty_urls sampleDecodeEmpty sampleAttempts samplePost sampleSchedule
      { Urls := [] } rfl rfl rfl).1,
    (fetchHandler_empty_urls sampleDecodeEmpty sampleAttempts samplePost sampleSchedule
      { Urls := [] } rfl rfl rfl).2.2.1⟩

/-- C5: a request whose method is not POST is answered with status 405 and the
text "Only POST requests are allowed", whatever its body and whatever the
decoder would say; the body is not decoded and no worker is launched. -/
theorem fetchHandler_wrong_method (decode : String → Except String RequestPayload)
    (att : Nat → Attempt) (r : Request) (sched : List Nat) (hm : r.method ≠ "POST") :
    (fetchHandler decode att r sched).resp =
        some { status := 405, contentType := "text/plain; charset=utf-8",
               body := Body.text "Only POST requests are allowed\n" } ∧
      Body.contains (Body.text "Only POST requests are allowed\n")
        "Only POST requests are allowed" ∧
      (fetchHandler decode att r sched).decoded = false ∧
      (fetchHandler decode att r sched).workers = [] ∧
      (fetchHandler decode att r sched).results = [] := by
  have hx : fetchHandler decode att r sched =
      rejected false (httpError "Only POST requests are allowed" 405) := by
    simp [fetchHandler, hm]
  rw [hx]
  refine ⟨rfl, ?_, rfl, rfl, rfl⟩
  exact ⟨[], "\n".data, rfl⟩

theorem fetchHandler_wrong_method_witness :
    sampleGet.method ≠ "POST" ∧
      (fetchHandler sampleDecode sampleAttempts sampleGet sampleSchedule).resp =
        some { status := 405, contentType := "text/plain; charset=utf-8",
               body := Body.text "Only POST requests are allowed\n" } ∧
      (fetchHandler sampleDecode sampleAttempts sampleGet sampleSchedule).decoded = false :=
  ⟨by decide,
    (fetchHandler_wrong_method sampleDecode sampleAttempts sampleGet sampleSchedule
      (by decide)).1,
    (fetchHandler_wrong_method sampleDecode sampleAttempts sampleGet sampleSchedule
      (by decide)).2.2.1⟩

/-- C6: a POST request whose body fails to decode with detail d is answered with
status 400 and a text that begins with "Invalid JSON format: " followed by d;
no worker is launched. -/
theorem fetchHandler_invalid_json (decode : String → Except String RequestPayload)
    (att : Nat → Attempt) (r : Request) (sched : List Nat) (d : String)
    (hm : r.method = "POST") (hd : decode r.body = Except.error d) :
    (fetchHandler decode att r sched).resp =
        some { status := 400, contentType := "text/plain; charset=utf-8",
               body := Body.text ("Invalid JSON format: " ++ d ++ "\n") } ∧
      Body.beginsWith (Body.text ("Invalid JSON format: " ++ d ++ "\n"))
        ("Invalid JSON format: " ++ d) ∧
      (fetchHandler decode att r sched).workers = [] ∧
      (fetchHandler decode att r sched).results = [] := by
  have hx : fetchHandler decode att r sched =
      rejected true (httpError ("Invalid JSON format: " ++ d) 400) := by
    simp [fetchHandler, hm, hd]
  rw [hx]
  refine ⟨rfl, ?_, rfl, rfl⟩
  exact ⟨"\n".data, by simp [String.data_append]⟩

theorem fetchHandler_invalid_json_witness :
    samplePost.method = "POST" ∧
      sampleDecodeFail samplePost.body = Except.error "unexpected EOF" ∧
      (fetchHandler sampleDecodeFail sampleAttempts samplePost sampleSchedule).resp =
        some { status := 400, contentType := "text/plain; charset=utf-8",
               body := Body.text ("Invalid JSON format: " ++ "unexpected EOF" ++ "\n") } :=
  ⟨rfl, rfl,
    (fetchHandler_invalid_json sampleDecodeFail sampleAttempts samplePost sampleSchedule
      "unexpected EOF" rfl rfl).1⟩

/-- C7: when request creation, execution and body read all succeed, `fetchURL`
performs the three calls and sends the Result with the input URL, the whole
body as data and an empty error.  In an accepted batch in which every fetch
succeeds, the array written to the response holds, up to order, one entry per
URL with that URL, the body served to its own worker and an empty error. -/
theorem fetchURL_success (a : Attempt) (url : String) (h1 : a.newRequestErr = none)
    (h2 : a.doErr = none) (h3 : a.readErr = none) :
    fetchURL a url =
        [Event.newRequest url, Event.clientDo, Event.readAll,
          Event.send { URL := url, Data := a.body, Err := "" }, Event.bodyClose,
          Event.wgDone] ∧
      (∀ (decode : String → Except String RequestPayload) (att : Nat → Attempt) (r : Request)
        (sched : List Nat) (p : RequestPayload), r.method = "POST" →
        decode r.body = Except.ok p → p.Urls ≠ [] → stepBound p.Urls.length ≤ sched.length →
        (∀ i, i < p.Urls.length →
          (att i).newRequestErr = none ∧ (att i).doErr = none ∧ (att i).readErr = none) →
        (fetchHandler decode att r sched).resp =
            some { status := 200, contentType := "application/json",
                   body := Body.json (fetchHandler decode att r sched).results } ∧
          (fetchHandler decode att r sched).results.Perm
            (p.Urls.enum.map
              (fun iu => { URL := iu.2, Data := (att iu.1).body, Err := "" }))) := by
  constructor
  · simp [fetchURL, h1, h2, h3]
  · intro decode att r sched p hm hd hne hs hok
    rw [fetchHandler_accept decode att r sched p hm hd hne]
    have h := dispatch_returns att p.Urls hne sched hs
    refine ⟨h.2.2.1, ?_⟩
    have hf := future_all_ok att p.Urls 0 (fun i _ hi => hok i (by omega))
    have hp := h.2.2.2.1
    rw [hf] at hp
    exact hp

theorem fetchURL_success_witness :
    sends (fetchURL (sampleAllOk 0) "http://a.test") =
        [{ URL := "http://a.test", Data := "ok", Err := "" }] ∧
      (fetchHandler sampleDecode sampleAllOk samplePost sampleSchedule).results.Perm
        [{ URL := "http://a.test", Data := "ok", Err := "" },
         { URL := "http://b.test", Data := "ok", Err := "" },
         { URL := "http://a.test", Data := "ok", Err := "" }] :=
  ⟨congrArg sends (fetchURL_success (sampleAllOk 0) "http://a.test" rfl rfl rfl).1,
    ((fetchURL_success (sampleAllOk 0) "http://a.test" rfl rfl rfl).2 sampleDecode sampleAllOk
      samplePost sampleSchedule { Urls := ["http://a.test", "http://b.test", "http://a.test"] }
      rfl rfl (List.cons_ne_nil _ _) sample_bound (fun _ _ => ⟨rfl, rfl, rfl⟩)).2⟩

/-- C8: when the fetch fails with error e at request creation, at request
execution or at body read, `fetchURL` sends the Result with the input URL,
empty data and the text of e, and the calls after the failing one are not
made: the effects are exactly those listed. -/
theorem fetchURL_failure (a : Attempt) (url : String) (e : String) :
    (a.newRequestErr = some e →
      fetchURL a url =
        [Event.newRequest url, Event.send { URL := url, Data := "", Err := e },
          Event.wgDone]) ∧
    (a.newRequestErr = none → a.doErr = some e →
      fetchURL a url =
        [Event.newRequest url, Event.clientDo,
          Event.send { URL := url, Data := "", Err := e }, Event.wgDone]) ∧
    (a.newRequestErr = none → a.doErr = none → a.readErr = some e →
      fetchURL a url =
        [Event.newRequest url, Event.clientDo, Event.readAll,
          Event.send { URL := url, Data := "", Err := e }, Event.bodyClose, Event.wgDone]) := by
  refine ⟨?_, ?_, ?_⟩
  · intro h1
    simp [fetchURL, h1]
  · intro h1 h2
    simp [fetchURL, h1, h2]
  · intro h1 h2 h3
    simp [fetchURL, h1, h2, h3]

theorem fetchURL_failure_witness :
    fetchURL { newRequestErr := some "parse error", doErr := none, body := "", readErr := none }
        "http://[invalid-url" =
        [Event.newRequest "http://[invalid-url",
          Event.send { URL := "http://[invalid-url", Data := "", Err := "parse error" },
          Event.wgDone] ∧
      fetchURL (sampleAttempts 1) "http://b.test" =
        [Event.newRequest "http://b.test", Event.clientDo,
          Event.send { URL := "http://b.test", Data := "", Err := "context deadline exceeded" },
          Event.wgDone] ∧
      fetchURL { newRequestErr := none, doErr := none, body := "par", readErr := some "EOF" }
        "http://c.test" =
        [Event.newRequest "http://c.test", Event.clientDo, Event.readAll,
          Event.send { URL := "http://c.test", Data := "", Err := "EOF" }, Event.bodyClose,
          Event.wgDone] :=
  ⟨(fetchURL_failure _ _ _).1 rfl, (fetchURL_failure _ _ _).2.1 rfl rfl,
    (fetchURL_failure _ _ _).2.2 rfl rfl rfl⟩

/-- C9: per-URL failures never abort the batch.  The response carries a client
error status exactly when the method is not POST, the body does not decode or
the URL list is empty; for a POST request with a decodable body and a non-empty
URL list the handler answers, whatever the outcomes of the fetches and the
interleaving, with status 200, content type application/json and the array of
the Results of its workers, one per URL. -/
theorem fetchHandler_status (decode : String → Except String RequestPayload)
    (att : Nat → Attempt) (r : Request) (sched : List Nat) :
    ((∃ resp, (fetchHandler decode att r sched).resp = some resp ∧
        isClientError resp.status) ↔
      (r.method ≠ "POST" ∨ (∃ d, decode r.body = Except.error d) ∨
        (∃ p, decode r.body = Except.ok p ∧ p.Urls = []))) ∧
    (∀ p, r.method = "POST" → decode r.body = Except.ok p → p.Urls ≠ [] →
      stepBound p.Urls.length ≤ sched.length →
      (fetchHandler decode att r sched).resp =
          some { status := 200, contentType := "application/json",
                 body := Body.json (fetchHandler decode att r sched).results } ∧
        (fetchHandler decode att r sched).results.Perm (future att 0 p.Urls)) := by
  constructor
  · by_cases hm : r.method = "POST"
    · cases hd : decode r.body with
      | error d =>
        have hx : fetchHandler decode att r sched =
            rejected true (httpError ("Invalid JSON format: " ++ d) 400) := by
          simp [fetchHandler, hm, hd]
        rw [hx]
        constructor
        · intro _
          exact Or.inr (Or.inl ⟨d, rfl⟩)
        · intro _
          exact ⟨_, rfl, by simp [httpError, isClientError]⟩
      | ok p =>
        by_cases hne : p.Urls = []
        · have hx : fetchHandler decode att r sched =
              rejected true (httpError "No URLs provided" 400) := by
            simp [fetchHandler, hm, hd, hne]
          rw [hx]
          constructor
          · intro _
            exact Or.inr (Or.inr ⟨p, rfl, hne⟩)
          · intro _
            exact ⟨_, rfl, by simp [httpError, isClientError]⟩
        · rw [fetchHandler_accept decode att r sched p hm hd hne]
          have hi := inv_run_any att p.Urls hne sched (dispatch p.Urls) (inv_dispatch att p.Urls)
          constructor
          · rintro ⟨resp, h1, h2⟩
            have hw := hi.written
            rw [h1] at hw
            split at hw
            · simp only [Option.some.injEq] at hw
              rw [hw] at h2
              simp [isClientError] at h2
            · simp at hw
          · rintro (h | ⟨d, h⟩ | ⟨q, h1, h2⟩)
            · exact absurd hm h
            · simp at h
            · simp only [Except.ok.injEq] at h1
              subst h1
              exact absurd h2 hne
    · have hx : fetchHandler decode att r sched =
          rejected false (httpError "Only POST requests are allowed" 405) := by
        simp [fetchHandler, hm]
      rw [hx]
      constructor
      · intro _
        exact Or.inl hm
      · intro _
        exact ⟨_, rfl, by simp [httpError, isClientError]⟩
  · intro p hm hd hne hs
    rw [fetchHandler_accept decode att r sched p hm hd hne]
    have h := dispatch_returns att p.Urls hne sched hs
    exact ⟨h.2.2.1, h.2.2.2.1⟩

theorem fetchHandler_status_witness :
    (fetchHandler sampleDecode sampleAttempts samplePost sampleSchedule).resp =
        some { status := 200, contentType := "application/json",
               body := Body.json
                 (fetchHandler sampleDecode sampleAttempts samplePost sampleSchedule).results } ∧
      (fetchHandler sampleDecode sampleAttempts samplePost sampleSchedule).results.Perm
        (future sampleAttempts 0 ["http://a.test", "http://b.test", "http://a.test"]) :=
  (fetchHandler_status sampleDecode sampleAttempts samplePost sampleSchedule).2
    { Urls := ["http://a.test", "http://b.test", "http://a.test"] } rfl rfl
    (List.cons_ne_nil _ _) sample_bound

end ConcurrentAPIFetcher
